import Mathlib

open Matrix

/-!
Verification of the rom-comma numerical core (romcomma/gsa/base.py,
romcomma/gpf/likelihoods.py, romcomma/test/sampling.py) against its
natural-language specification.

Tensors are shallowly embedded as a row-major shape (`List Nat`) together
with flat data (`List ℚ`).  Shape bookkeeping (reshape, broadcasting,
singleton-axis insertion, diagonal extraction) follows the NumPy/TensorFlow
semantics used by the source; failure (a raised shape/rank error) is
modelled as `none`.
-/

/-- Row-major flat index of a multi-index `idx` in a tensor of shape `shape`. -/
def flatIndex : List Nat → List Nat → Nat
  | _ :: ds, i :: is => i * ds.prod + flatIndex ds is
  | _, _ => 0

/-- Row-major multi-index of flat position `k` in a tensor of shape `shape`. -/
def multiIndex : List Nat → Nat → List Nat
  | [], _ => []
  | _ :: ds, k => (k / ds.prod) :: multiIndex ds (k % ds.prod)

/-- NumPy/TensorFlow broadcasting of two equal-length dimension lists:
dimensions must agree or one of them must be 1. -/
def broadcastDims : List Nat → List Nat → Option (List Nat)
  | [], [] => some []
  | a :: as, b :: bs =>
    (broadcastDims as bs).bind fun r =>
      if a = b then some (a :: r)
      else if a = 1 then some (b :: r)
      else if b = 1 then some (a :: r)
      else none
  | _, _ => none

/-- Broadcasting of two shapes: left-pad the shorter one with singleton axes,
then broadcast dimension-wise.  `none` models a raised shape error. -/
def broadcastShapes (s t : List Nat) : Option (List Nat) :=
  let n := max s.length t.length
  broadcastDims (List.replicate (n - s.length) 1 ++ s) (List.replicate (n - t.length) 1 ++ t)

/-- Coordinates in a source tensor of shape `s` corresponding to a (possibly
longer) broadcast multi-index `idx`: keep the trailing `s.length` coordinates
and clamp every coordinate of a singleton axis to 0. -/
def srcCoord (s idx : List Nat) : List Nat :=
  (s.zip (idx.drop (idx.length - s.length))).map fun p => if p.1 = 1 then 0 else p.2

/-- A tensor: a row-major shape together with flat data. -/
structure Tensor where
  shape : List Nat
  data : List ℚ
deriving DecidableEq

/-- Broadcast-aware element access at multi-index `idx` (out-of-range reads
default to 0; they never occur on well-formed inputs). -/
def Tensor.bget (t : Tensor) (idx : List Nat) : ℚ :=
  t.data.getD (flatIndex t.shape (srcCoord t.shape idx)) 0

/-- Elementwise addition with NumPy/TensorFlow broadcasting; `none` models a
raised shape-incompatibility error. -/
def Tensor.add (a b : Tensor) : Option Tensor :=
  (broadcastShapes a.shape b.shape).map fun s =>
    ⟨s, (List.range s.prod).map fun k => a.bget (multiIndex s k) + b.bget (multiIndex s k)⟩

/-- `tf.reshape` / NumPy reshape: the element count must be preserved; the
row-major data is unchanged. -/
def Tensor.reshape (t : Tensor) (s : List Nat) : Option Tensor :=
  if s.prod = t.shape.prod then some ⟨s, t.data⟩ else none

/-- Shape effect of `tf.expand_dims(·, axis)`: insert a singleton axis at
position `axis`. -/
def expandDimsShape (s : List Nat) (axis : Nat) : List Nat :=
  s.take axis ++ 1 :: s.drop axis

/-- `tf.expand_dims(t, axis)`: the row-major data is unchanged. -/
def Tensor.expandDims (t : Tensor) (axis : Nat) : Tensor :=
  ⟨expandDimsShape t.shape axis, t.data⟩

/-- `tf.linalg.diag_part`: the input must have rank at least 2 (otherwise
TensorFlow raises, modelled as `none`); the last two axes are treated as a
(batched) matrix whose diagonal is extracted. -/
def Tensor.diagPart (t : Tensor) : Option Tensor :=
  match t.shape with
  | [] => none
  | [_] => none
  | _ :: _ :: _ =>
    let s := t.shape
    let n := s.length
    let a := s.getD (n - 2) 0
    let b := s.getD (n - 1) 0
    let outShape := s.take (n - 2) ++ [min a b]
    some ⟨outShape, (List.range outShape.prod).map fun k =>
      let idx := multiIndex outShape k
      t.data.getD (flatIndex s (idx.dropLast ++ [idx.getLastD 0, idx.getLastD 0])) 0⟩

/-- The Python iteration sequence `range(start, 0, -step)` for a positive
step: `start, start - step, ...` while positive. -/
def pyRangeNeg (start : Int) (step : Nat) : List Int :=
  (List.range ((start.toNat + step - 1) / step)).map fun k => start - ((k * step : Nat) : Int)

example : pyRangeNeg 4 2 = [4, 2] := by decide
example : pyRangeNeg 2 2 = [2] := by decide
example : pyRangeNeg 0 2 = [] := by decide
example : pyRangeNeg (-2) 2 = [] := by decide
example : pyRangeNeg 5 2 = [5, 3, 1] := by decide

namespace GaussianWithout2Pi

/-- The singleton-axis insertion step of `GaussianWithout2Pi.log_pdf`
(gsa/base.py lines 81-85): compute
`insertions = rank(variance_cho) - (1 if is_variance_diagonal else 2)`,
round it down to a multiple of `LBunch`
(`insertions -= insertions % LBunch`), then
`for axis in range(insertions, 0, -LBunch): expand_dims(variance_cho, axis)`. -/
def varianceChoBroadcast (variance_cho : Tensor) (is_variance_diagonal : Bool)
    (LBunch : Nat) : Tensor :=
  let insertions0 : Int := (variance_cho.shape.length : Int) - (if is_variance_diagonal then 1 else 2)
  let insertions : Int := insertions0 - insertions0 % (LBunch : Int)
  (pyRangeNeg insertions LBunch).foldl (fun t axis => t.expandDims axis.toNat) variance_cho

/-- The second component returned by `GaussianWithout2Pi.log_pdf`
(gsa/base.py line 92): `tf.linalg.diag_part` of the axis-inserted
`variance_cho`. -/
def logPdfSecond (variance_cho : Tensor) (is_variance_diagonal : Bool)
    (LBunch : Nat) : Option Tensor :=
  (varianceChoBroadcast variance_cho is_variance_diagonal LBunch).diagPart

/-- Forward substitution on the leading `k × k` corner of a lower-triangular
system `C · x = d`, producing the solution entries `x 0, ..., x (k-1)` in
order.  This is the `tf.linalg.triangular_solve(·, ·, lower=True)` primitive
used at gsa/base.py line 90. -/
def fsList (C : Nat → Nat → ℚ) (d : Nat → ℚ) : Nat → List ℚ
  | 0 => []
  | i + 1 =>
    let xs := fsList C d i
    xs ++ [(d i - ((List.range i).map fun j => C i j * xs.getD j 0).sum) / C i i]

/-- Forward substitution packaged over `Fin n`. -/
def forwardSolve (n : Nat) (C : Matrix (Fin n) (Fin n) ℚ) (d : Fin n → ℚ) : Fin n → ℚ :=
  fun i =>
    (fsList (fun a b => if h : a < n ∧ b < n then C ⟨a, h.1⟩ ⟨b, h.2⟩ else 0)
      (fun a => if h : a < n then d ⟨a, h⟩ else 0) n).getD i 0

/-- The dense-variance exponent of `GaussianWithout2Pi.log_pdf`
(gsa/base.py lines 80, 90, 91), per trailing `L`-vector: solve the
lower-triangular system `variance_cho · x = ordinate - mean` by forward
substitution, then return `-0.5 * einsum('...o, ...o -> ...', x, x)`. -/
def logPdfExponentDense (n : Nat) (variance_cho : Matrix (Fin n) (Fin n) ℚ)
    (mean ordinate : Fin n → ℚ) : ℚ :=
  let x := forwardSolve n variance_cho (fun i => ordinate i - mean i);
  -(1 / 2) * ∑ i, x i * x i

/-- The diagonal-variance exponent of `GaussianWithout2Pi.log_pdf`
(gsa/base.py lines 80, 88, 91), per trailing `L`-vector: divide the centered
ordinate elementwise by the (broadcast) diagonal, then return
`-0.5 * einsum('...o, ...o -> ...', x, x)`. -/
def logPdfExponentDiag (n : Nat) (variance_cho_diagonal : Fin n → ℚ)
    (mean ordinate : Fin n → ℚ) : ℚ :=
  let x := fun i => (ordinate i - mean i) / variance_cho_diagonal i;
  -(1 / 2) * ∑ i, x i * x i

end GaussianWithout2Pi

namespace MOGaussian

/-- `MOGaussian.N` (gpf/likelihoods.py lines 56-58):
`int(data.shape[-1] / self.latent_dim)`.  Python `int(·)` truncates the
float quotient toward zero, which on shape-sized naturals is floor
division; `shape[-1]` of a rank-0 tensor raises (modelled as `none`), and
`latent_dim = 0` would raise `ZeroDivisionError` (also `none`). -/
def N (latent_dim : Nat) (data : Tensor) : Option Nat :=
  match data.shape.getLast? with
  | none => none
  | some last => if latent_dim = 0 then none else some (last / latent_dim)

/-- `MOGaussian.split_axis_shape` (gpf/likelihoods.py lines 60-62):
`(self.latent_dim, self.N(data))`. -/
def split_axis_shape (latent_dim : Nat) (data : Tensor) : Option (Nat × Nat) :=
  (N latent_dim data).map fun n => (latent_dim, n)

/-- Modelled from the spec: `Variance.value_times_eye(N)` lives in
`romcomma.gpf.base`, which is not part of the sources; per the spec it
block-diagonally replicates the `L×L` covariance `value` `N` times along the
diagonal (one `L×L` covariance block per datapoint), yielding an
`(L·N)×(L·N)` matrix. -/
def valueTimesEye (latent_dim : Nat) (value : Tensor) (n : Nat) : Tensor :=
  let m := latent_dim * n;
  ⟨[m, m], (List.range (m * m)).map fun k =>
    let p := k / m;
    let q := k % m;
    if p / latent_dim = q / latent_dim then value.bget [p % latent_dim, q % latent_dim] else 0⟩

/-- `MOGaussian.add_to` (gpf/likelihoods.py lines 64-67):
assert `rank(Fvar) = 2` (an eager `tf.assert_equal` failure is modelled as
`none`), then return `Fvar + tf.reshape(self.variance.value_times_eye(self.N(Fvar)), Fvar.shape)`. -/
def add_to (latent_dim : Nat) (value : Tensor) (Fvar : Tensor) : Option Tensor :=
  if Fvar.shape.length = 2 then
    match N latent_dim Fvar with
    | none => none
    | some n =>
      match (valueTimesEye latent_dim value n).reshape Fvar.shape with
      | none => none
      | some noise => Fvar.add noise
  else none

/-- `MOGaussian._conditional_variance` (gpf/likelihoods.py lines 77-78):
`self.variance.value_times_eye(self.N(F))`. -/
def conditional_variance (latent_dim : Nat) (value : Tensor) (F : Tensor) : Option Tensor :=
  (N latent_dim F).map fun n => valueTimesEye latent_dim value n

/-- `MOGaussian._predict_mean_and_var` (gpf/likelihoods.py lines 80-89):
dispatch on `rank(Fvar)`; rank 4 adds `reshape(value, (1,1,L,L))`, rank 3
adds `reshape(value, (1,L,L))`, rank 2 adds
`reshape(diag_part(value), (1,L))`, any other rank raises (modelled as
`none`); `Fmu` is returned unchanged. -/
def predict_mean_and_var (latent_dim : Nat) (value : Tensor) (Fmu Fvar : Tensor) :
    Option (Tensor × Tensor) :=
  if Fvar.shape.length = 4 then
    (value.reshape [1, 1, latent_dim, latent_dim]).bind fun lhvar =>
      (Fvar.add lhvar).map fun v => (Fmu, v)
  else if Fvar.shape.length = 3 then
    (value.reshape [1, latent_dim, latent_dim]).bind fun lhvar =>
      (Fvar.add lhvar).map fun v => (Fmu, v)
  else if Fvar.shape.length = 2 then
    (value.diagPart.bind fun dg => dg.reshape [1, latent_dim]).bind fun lhvar =>
      (Fvar.add lhvar).map fun v => (Fmu, v)
  else none

end MOGaussian

/-- `np.atleast_2d` on a shape: a scalar becomes `(1,1)`, a vector `(n)`
becomes `(1,n)`, higher ranks are unchanged. -/
def atleast2d : List Nat → List Nat
  | [] => [1, 1]
  | [n] => [1, n]
  | s => s

/-- Shape behaviour of `multivariate_gaussian_noise` (test/sampling.py lines
53-60): after `atleast_2d`, a `(1,k)` variance is diagonalized to `(k,k)`;
otherwise a non-square or rank>2 variance raises `IndexError` (modelled as
`none`); the sample produced by `scipy.stats.multivariate_normal.rvs` is
reshaped to `(N, variance.shape[1])`. -/
def multivariate_gaussian_noise_shape (n : Nat) (variance_shape : List Nat) : Option (List Nat) :=
  let v := atleast2d variance_shape;
  if v.getD 0 0 = 1 ∧ v.length = 2 then some [n, v.getD 1 0]
  else if v.getD 0 0 ≠ v.getD 1 0 ∨ v.length > 2 then none
  else some [n, v.getD 1 0]

example : multivariate_gaussian_noise_shape 5 [3] = some [5, 3] := by decide
example : multivariate_gaussian_noise_shape 5 [3, 3] = some [5, 3] := by decide
example : multivariate_gaussian_noise_shape 5 [1, 3] = some [5, 3] := by decide
example : multivariate_gaussian_noise_shape 5 [] = some [5, 1] := by decide
example : multivariate_gaussian_noise_shape 5 [3, 2] = none := by decide
example : multivariate_gaussian_noise_shape 5 [2, 2, 2] = none := by decide

/-- The amended-claim formula for the number of singleton axes that
`GaussianWithout2Pi.log_pdf` inserts into `variance_cho`: the excess rank is
rounded down to a multiple of `LBunch` and one axis is inserted per
`LBunch`-sized group, so the count is `(excess - excess mod LBunch) / LBunch`. -/
def GaussianWithout2Pi.specInsertedAxisCount (rank : Nat) (is_variance_diagonal : Bool)
    (LBunch : Nat) : Nat :=
  let excess : Int := (rank : Int) - (if is_variance_diagonal then 1 else 2);
  (excess - excess % (LBunch : Int)).toNat / LBunch

lemma length_expandDimsShape (s : List Nat) (a : Nat) :
    (expandDimsShape s a).length = s.length + 1 := by
  simp [expandDimsShape]
  omega

lemma shape_foldl_expand (l : List Int) :
    ∀ t : Tensor, ((l.foldl (fun u ax => u.expandDims ax.toNat) t).shape).length
      = t.shape.length + l.length := by
  induction l with
  | nil => intro t; simp
  | cons a l ih =>
    intro t
    rw [List.foldl_cons, ih]
    simp only [Tensor.expandDims, length_expandDimsShape, List.length_cons]
    omega

lemma length_pyRangeNeg (s : Int) (k : Nat) :
    (pyRangeNeg s k).length = (s.toNat + k - 1) / k := by
  unfold pyRangeNeg
  rw [List.length_map, List.length_range]


lemma dvd_roundedToNat (e : Int) (k : Nat) (hk : 0 < k) : k ∣ (e - e % (k : Int)).toNat := by
  have h0 := Int.ediv_add_emod e k
  have h1 : e - e % (k : Int) = (k : Int) * (e / k) := by omega
  rcases le_or_lt 0 (e / k) with h | h
  · obtain ⟨m, hm⟩ := Int.eq_ofNat_of_zero_le h
    rw [h1, hm, show ((k : Int) * (m : Int)) = ((k * m : Nat) : Int) by push_cast; ring,
      Int.toNat_natCast]
    exact Dvd.intro m rfl
  · have hneg : (k : Int) * (e / k) < 0 :=
      mul_neg_of_pos_of_neg (by exact_mod_cast hk) h
    rw [h1, Int.toNat_of_nonpos (le_of_lt hneg)]
    exact dvd_zero k

lemma ceil_div_of_dvd (a k : Nat) (hk : 0 < k) (hd : k ∣ a) : (a + k - 1) / k = a / k := by
  obtain ⟨m, rfl⟩ := hd
  rw [show k * m + k - 1 = k * m + (k - 1) by omega, Nat.mul_add_div hk,
    Nat.div_eq_of_lt (by omega), Nat.mul_div_cancel_left m hk]
  omega

/-- C1 (counterexample): for a dense rank-5 `variance_cho` and `LBunch = 2`
the excess rank is 3, rounded down to 2, and the claim predicts 2 inserted
singleton axes; but the loop `range(2, 0, -2)` runs once, inserting exactly
one axis (at position 2). -/
theorem varianceCho_insertion_count_cx :
    (GaussianWithout2Pi.varianceChoBroadcast ⟨[2, 2, 2, 3, 3], []⟩ false 2).shape
        = [2, 2, 1, 2, 3, 3]
    ∧ ¬ ((GaussianWithout2Pi.varianceChoBroadcast ⟨[2, 2, 2, 3, 3], []⟩ false 2).shape.length
        = [2, 2, 2, 3, 3].length + 2) := by
  decide

/-- C1 (amended): for every `variance_cho` and every `LBunch > 0`, the count
of singleton axes inserted by `GaussianWithout2Pi.log_pdf` into
`variance_cho` equals `(excess - excess mod LBunch) / LBunch`, where the
excess is the rank beyond the 1 (diagonal) or 2 (dense) trailing axes —
one inserted axis per `LBunch`-sized group, not one per unit of excess. -/
theorem varianceCho_insertion_count (t : Tensor) (d : Bool) (LBunch : Nat) (h : 0 < LBunch) :
    (GaussianWithout2Pi.varianceChoBroadcast t d LBunch).shape.length
      = t.shape.length + GaussianWithout2Pi.specInsertedAxisCount t.shape.length d LBunch := by
  unfold GaussianWithout2Pi.varianceChoBroadcast GaussianWithout2Pi.specInsertedAxisCount
  rw [shape_foldl_expand, length_pyRangeNeg,
    ceil_div_of_dvd _ _ h (dvd_roundedToNat _ _ h)]

/-- Witness for `varianceCho_insertion_count` at a concrete input: a dense
rank-4 `variance_cho` with `LBunch = 2` receives exactly one inserted axis. -/
theorem varianceCho_insertion_count_w :
    0 < 2
    ∧ (GaussianWithout2Pi.varianceChoBroadcast ⟨[2, 2, 3, 3], []⟩ false 2).shape.length
        = 4 + GaussianWithout2Pi.specInsertedAxisCount 4 false 2 :=
  ⟨by decide, varianceCho_insertion_count ⟨[2, 2, 3, 3], []⟩ false 2 (by decide)⟩

/-- C3 (code evaluated at the failing input): the second component returned
by `GaussianWithout2Pi.log_pdf` is `tf.linalg.diag_part` of the axis-inserted
`variance_cho` even when `is_variance_diagonal` is true.  For the documented
diagonal calling convention (`variance_cho` an M-vector) no axis is inserted
and `diag_part` of a rank-1 tensor raises (first conjunct); for a rank-2
batch of diagonals `[2,3]` it returns the matrix diagonal `[v00, v11]` of
the trailing two axes (second conjunct), which is not the supplied diagonal
(third conjunct) — contradicting the docstring's promise to return the
diagonal of `variance_cho`. -/
theorem log_pdf_second_component_bug :
    GaussianWithout2Pi.logPdfSecond ⟨[2], [2, 3]⟩ true 2 = none
    ∧ GaussianWithout2Pi.logPdfSecond ⟨[2, 3], [1, 2, 3, 4, 5, 6]⟩ true 2
        = some ⟨[2], [1, 5]⟩
    ∧ (∀ r : Tensor, GaussianWithout2Pi.logPdfSecond ⟨[2, 3], [1, 2, 3, 4, 5, 6]⟩ true 2 = some r
        → r ≠ ⟨[2, 3], [1, 2, 3, 4, 5, 6]⟩) := by
  refine ⟨by decide, by decide, ?_⟩
  intro r hr
  have : r = ⟨[2], [1, 5]⟩ := by
    have h2 : GaussianWithout2Pi.logPdfSecond ⟨[2, 3], [1, 2, 3, 4, 5, 6]⟩ true 2
        = some ⟨[2], [1, 5]⟩ := by decide
    rw [h2] at hr
    exact (Option.some_injective _ hr).symm
  rw [this]
  decide

/-- C4 (counterexample): `MOGaussian.N` computed on data with last-axis
length 5 and `latent_dim = 2` silently truncates to 2 — `int(5 / 2) = 2` —
instead of failing, although 5 is not divisible by 2. -/
theorem datapoint_count_cx :
    MOGaussian.N 2 ⟨[5], [0, 0, 0, 0, 0]⟩ = some 2 ∧ ¬ (5 % 2 = 0) := by
  decide

/-- C4 (amended): for a positive latent dimension `L` and any tensor with a
last axis, `MOGaussian.N` never fails: it returns the floor of
`last_axis_length / L` (Python `int(·/·)` truncation); when the length is
divisible it returns the exact quotient `N` with `L * N = last`. -/
theorem datapoint_count (L : Nat) (data : Tensor) (init : List Nat) (last : Nat)
    (hL : 0 < L) (hshape : data.shape = init ++ [last]) :
    MOGaussian.N L data = some (last / L) ∧ (last % L = 0 → L * (last / L) = last) := by
  constructor
  · unfold MOGaussian.N
    rw [hshape, List.getLast?_concat]
    simp [hL.ne']
  · intro hdvd
    exact Nat.mul_div_cancel' (Nat.dvd_of_mod_eq_zero hdvd)

/-- Witness for `datapoint_count`: last-axis length 6 with `L = 2` gives
`N = 3`. -/
theorem datapoint_count_w :
    0 < 2 ∧ (⟨[6], []⟩ : Tensor).shape = [] ++ [6]
    ∧ MOGaussian.N 2 ⟨[6], []⟩ = some (6 / 2) ∧ (6 % 2 = 0 → 2 * (6 / 2) = 6) :=
  ⟨by decide, by decide, datapoint_count 2 ⟨[6], []⟩ [] 6 (by decide) (by decide)⟩

lemma broadcastDims_self (s : List Nat) : broadcastDims s s = some s := by
  induction s with
  | nil => rfl
  | cons a l ih => simp [broadcastDims, ih]

lemma broadcastShapes_self (s : List Nat) : broadcastShapes s s = some s := by
  unfold broadcastShapes
  simp [broadcastDims_self]

/-- C6: `MOGaussian.add_to` fails its rank assertion for every `Fvar` of rank
other than 2; for rank-2 `Fvar` (with compatible element count, as required
by the reshape) it returns `Fvar` plus the covariance block-replicated
`N = Fvar.shape[-1] / L` times along the diagonal and reshaped to `Fvar`'s
shape — and the assertion never fires in that case: the result is `some`. -/
theorem add_to_noise (L : Nat) (value Fvar : Tensor) :
    (Fvar.shape.length ≠ 2 → MOGaussian.add_to L value Fvar = none)
    ∧ ∀ a b, 0 < L → Fvar.shape = [a, b] → L * (b / L) * (L * (b / L)) = a * b →
        MOGaussian.add_to L value Fvar
            = Fvar.add ⟨[a, b], (MOGaussian.valueTimesEye L value (b / L)).data⟩
        ∧ ∃ t, MOGaussian.add_to L value Fvar = some t := by
  constructor
  · intro h
    unfold MOGaussian.add_to
    rw [if_neg h]
  · intro a b hL hsh hprod
    have hmain : MOGaussian.add_to L value Fvar
        = Fvar.add ⟨[a, b], (MOGaussian.valueTimesEye L value (b / L)).data⟩ := by
      have hlast : ([a, b] : List Nat).getLast? = some b := rfl
      have hif : ([a, b] : List Nat).prod = (MOGaussian.valueTimesEye L value (b / L)).shape.prod := by
        show a * (b * 1) = L * (b / L) * (L * (b / L) * 1)
        rw [mul_one, mul_one, ← hprod]
      unfold MOGaussian.add_to MOGaussian.N Tensor.reshape
      rw [hsh, hlast]
      simp [hL.ne', hif]
    refine ⟨hmain, ?_⟩
    rw [hmain]
    unfold Tensor.add
    rw [hsh]
    rw [show (⟨[a, b], (MOGaussian.valueTimesEye L value (b / L)).data⟩ : Tensor).shape
        = [a, b] from rfl, broadcastShapes_self]
    exact ⟨_, rfl⟩

/-- Witness for `add_to_noise`: rank-3 input is rejected; a rank-2 `[1,1]`
input with `L = 1` succeeds. -/
theorem add_to_noise_w :
    ((⟨[1, 1, 1], [5]⟩ : Tensor).shape.length ≠ 2
      ∧ MOGaussian.add_to 1 ⟨[1, 1], [3]⟩ ⟨[1, 1, 1], [5]⟩ = none)
    ∧ (0 < 1 ∧ (⟨[1, 1], [10]⟩ : Tensor).shape = [1, 1]
      ∧ ∃ t, MOGaussian.add_to 1 ⟨[1, 1], [3]⟩ ⟨[1, 1], [10]⟩ = some t) :=
  ⟨⟨by decide, (add_to_noise 1 ⟨[1, 1], [3]⟩ ⟨[1, 1, 1], [5]⟩).1 (by decide)⟩,
   by decide, by decide,
   ((add_to_noise 1 ⟨[1, 1], [3]⟩ ⟨[1, 1], [10]⟩).2 1 1 (by decide) (by decide) (by decide)).2⟩

/-- C7: for `L, N > 0` and a tensor whose trailing axis has length `L*N`,
`MOGaussian.split_axis_shape` returns exactly the pair `(L, N)` in that
order, and reshaping the trailing axis to `(L, N)` and flattening back
reproduces the tensor exactly. -/
theorem split_merge_roundtrip (L n : Nat) (X : Tensor) (init : List Nat)
    (hL : 0 < L) (hn : 0 < n) (hshape : X.shape = init ++ [L * n]) :
    MOGaussian.split_axis_shape L X = some (L, n)
    ∧ (X.reshape (init ++ [L, n])).bind (fun y => y.reshape X.shape) = some X := by
  obtain ⟨s, dd⟩ := X
  simp only at hshape
  subst hshape
  constructor
  · unfold MOGaussian.split_axis_shape MOGaussian.N
    simp only [List.getLast?_concat]
    simp [hL.ne', Nat.mul_div_cancel_left n hL]
  · have h1 : (init ++ [L, n]).prod = (init ++ [L * n]).prod := by
      simp [List.prod_append]
    simp [Tensor.reshape, h1]

/-- Witness for `split_merge_roundtrip`: a `[3, 6]` tensor with `L = 2`,
`N = 3` splits to `(2, 3)` and the reshape round-trip is the identity. -/
theorem split_merge_roundtrip_w :
    0 < 2 ∧ 0 < 3 ∧ (⟨[3, 6], [1, 2]⟩ : Tensor).shape = [3] ++ [2 * 3]
    ∧ MOGaussian.split_axis_shape 2 ⟨[3, 6], [1, 2]⟩ = some (2, 3)
    ∧ ((⟨[3, 6], [1, 2]⟩ : Tensor).reshape ([3] ++ [2, 3])).bind
        (fun y => y.reshape (⟨[3, 6], [1, 2]⟩ : Tensor).shape) = some ⟨[3, 6], [1, 2]⟩ :=
  ⟨by decide, by decide, by decide,
   split_merge_roundtrip 2 3 ⟨[3, 6], [1, 2]⟩ [3] (by decide) (by decide) (by decide)⟩

/-- C9: `MOGaussian._conditional_variance` depends only on the shape of its
argument — two tensors of identical shape yield identical results — and the
result is the covariance block-replicated across the `N` implied by the
trailing axis. -/
theorem conditional_variance_shape_only (L : Nat) (value F1 F2 : Tensor)
    (h : F1.shape = F2.shape) :
    MOGaussian.conditional_variance L value F1 = MOGaussian.conditional_variance L value F2
    ∧ ∀ n, MOGaussian.N L F1 = some n →
        MOGaussian.conditional_variance L value F1
          = some (MOGaussian.valueTimesEye L value n) := by
  constructor
  · unfold MOGaussian.conditional_variance MOGaussian.N
    rw [h]
  · intro n hn
    unfold MOGaussian.conditional_variance
    rw [hn]
    rfl

/-- Witness for `conditional_variance_shape_only`: two same-shape tensors
with different values produce the same conditional variance. -/
theorem conditional_variance_shape_only_w :
    (⟨[2], [1, 2]⟩ : Tensor).shape = (⟨[2], [9, 9]⟩ : Tensor).shape
    ∧ MOGaussian.conditional_variance 1 ⟨[1, 1], [4]⟩ ⟨[2], [1, 2]⟩
        = MOGaussian.conditional_variance 1 ⟨[1, 1], [4]⟩ ⟨[2], [9, 9]⟩ :=
  ⟨rfl, (conditional_variance_shape_only 1 ⟨[1, 1], [4]⟩ ⟨[2], [1, 2]⟩ ⟨[2], [9, 9]⟩ rfl).1⟩

/-- C8 (counterexample): a `(1,3)` variance matrix is 2-D and non-square —
neither a 1-D vector nor a square 2-D matrix — yet
`multivariate_gaussian_noise` accepts it (it is treated as a diagonal and
diagflattened), producing an `(N,3)` sample instead of raising. -/
theorem noise_variance_shape_cx :
    multivariate_gaussian_noise_shape 5 [1, 3] = some [5, 3]
    ∧ [1, 3].length ≠ 1
    ∧ ¬ (([1, 3] : List Nat).length = 2 ∧ ([1, 3] : List Nat).getD 0 0 = [1, 3].getD 1 0) := by
  decide

/-- C8 (amended): `multivariate_gaussian_noise` raises a shape error exactly
when the variance has rank above 2, or is 2-D with first dimension neither 1
nor equal to the second (scalars, vectors, `1×k` matrices and square
matrices are accepted, the first three being diagonalized); every accepted
variance yields an `(N, L)` result where `L` is the trailing dimension of
the 2-D (possibly diagonalized) covariance. -/
theorem noise_variance_shape (n : Nat) (s : List Nat) :
    (multivariate_gaussian_noise_shape n s = none
        ↔ (2 < s.length ∨ (s.length = 2 ∧ s.getD 0 0 ≠ 1 ∧ s.getD 0 0 ≠ s.getD 1 0)))
    ∧ ∀ r, multivariate_gaussian_noise_shape n s = some r
        → r = [n, (atleast2d s).getD 1 0] := by
  rcases s with _ | ⟨a, _ | ⟨b, _ | ⟨c, rest⟩⟩⟩
  · exact ⟨by simp [multivariate_gaussian_noise_shape, atleast2d], by
      intro r hr
      simp [multivariate_gaussian_noise_shape, atleast2d] at hr ⊢
      simp_all⟩
  · exact ⟨by simp [multivariate_gaussian_noise_shape, atleast2d], by
      intro r hr
      simp [multivariate_gaussian_noise_shape, atleast2d] at hr ⊢
      simp_all⟩
  · constructor
    · by_cases ha : a = 1
      · subst ha
        simp [multivariate_gaussian_noise_shape, atleast2d]
      · by_cases hab : a = b
        · subst hab
          simp [multivariate_gaussian_noise_shape, atleast2d, ha]
        · simp [multivariate_gaussian_noise_shape, atleast2d, ha, hab]
    · intro r hr
      by_cases ha : a = 1
      · subst ha
        simp [multivariate_gaussian_noise_shape, atleast2d] at hr ⊢
        simp_all
      · by_cases hab : a = b
        · subst hab
          simp [multivariate_gaussian_noise_shape, atleast2d, ha] at hr ⊢
          simp_all
        · simp [multivariate_gaussian_noise_shape, atleast2d, ha, hab] at hr
  · constructor
    · simp [multivariate_gaussian_noise_shape, atleast2d]
    · intro r hr
      simp [multivariate_gaussian_noise_shape, atleast2d] at hr

/-- Witness for `noise_variance_shape`: a plain 1-D variance `[4]` is
accepted and yields a `(7, 4)` sample shape. -/
theorem noise_variance_shape_w :
    multivariate_gaussian_noise_shape 7 [4] = some [7, 4]
    ∧ [7, 4] = [7, (atleast2d [4]).getD 1 0] :=
  ⟨by decide, (noise_variance_shape 7 [4]).2 [7, 4] (by decide)⟩

lemma diagPart_square (L : Nat) (vdata : List ℚ) :
    Tensor.diagPart ⟨[L, L], vdata⟩
      = some ⟨[L], (List.range L).map fun i => vdata.getD (i * L + i) 0⟩ := by
  unfold Tensor.diagPart
  simp [multiIndex, flatIndex]

/-- C5: `MOGaussian._predict_mean_and_var` raises for every `Fvar` whose
rank is outside {2,3,4}; for rank 4 it returns `Fmu` unchanged alongside
`Fvar` plus the covariance reshaped to `(1,1,L,L)`, for rank 3 alongside
`Fvar` plus the covariance reshaped to `(1,L,L)`, and for rank 2 alongside
`Fvar` plus only the covariance diagonal reshaped to `(1,L)`. -/
theorem predict_mean_and_var_dispatch (L : Nat) (vdata : List ℚ) (Fmu Fvar : Tensor) :
    (Fvar.shape.length ≠ 2 → Fvar.shape.length ≠ 3 → Fvar.shape.length ≠ 4 →
        MOGaussian.predict_mean_and_var L ⟨[L, L], vdata⟩ Fmu Fvar = none)
    ∧ (Fvar.shape.length = 4 →
        MOGaussian.predict_mean_and_var L ⟨[L, L], vdata⟩ Fmu Fvar
          = (Fvar.add ⟨[1, 1, L, L], vdata⟩).map fun v => (Fmu, v))
    ∧ (Fvar.shape.length = 3 →
        MOGaussian.predict_mean_and_var L ⟨[L, L], vdata⟩ Fmu Fvar
          = (Fvar.add ⟨[1, L, L], vdata⟩).map fun v => (Fmu, v))
    ∧ (Fvar.shape.length = 2 →
        MOGaussian.predict_mean_and_var L ⟨[L, L], vdata⟩ Fmu Fvar
          = (Fvar.add ⟨[1, L], (List.range L).map fun i => vdata.getD (i * L + i) 0⟩).map
              fun v => (Fmu, v)) := by
  refine ⟨?_, ?_, ?_, ?_⟩
  · intro h2 h3 h4
    unfold MOGaussian.predict_mean_and_var
    rw [if_neg h4, if_neg h3, if_neg h2]
  · intro h4
    unfold MOGaussian.predict_mean_and_var
    rw [if_pos h4]
    have : (⟨[L, L], vdata⟩ : Tensor).reshape [1, 1, L, L] = some ⟨[1, 1, L, L], vdata⟩ := by
      unfold Tensor.reshape
      rw [if_pos (by simp)]
    rw [this]
    rfl
  · intro h3
    unfold MOGaussian.predict_mean_and_var
    rw [if_neg (by omega), if_pos h3]
    have : (⟨[L, L], vdata⟩ : Tensor).reshape [1, L, L] = some ⟨[1, L, L], vdata⟩ := by
      unfold Tensor.reshape
      rw [if_pos (by simp)]
    rw [this]
    rfl
  · intro h2
    unfold MOGaussian.predict_mean_and_var
    rw [if_neg (by omega), if_neg (by omega), if_pos h2, diagPart_square]
    have : (⟨[L], (List.range L).map fun i => vdata.getD (i * L + i) 0⟩ : Tensor).reshape [1, L]
        = some ⟨[1, L], (List.range L).map fun i => vdata.getD (i * L + i) 0⟩ := by
      unfold Tensor.reshape
      rw [if_pos (by simp)]
    simp only [Option.some_bind, this]

/-- Witness for `predict_mean_and_var_dispatch`: with `L = 1` and a rank-4
`Fvar`, the rank-4 branch applies. -/
theorem predict_mean_and_var_dispatch_w :
    (⟨[1, 1, 1, 1], [5]⟩ : Tensor).shape.length = 4
    ∧ MOGaussian.predict_mean_and_var 1 ⟨[1, 1], [7]⟩ ⟨[1], [0]⟩ ⟨[1, 1, 1, 1], [5]⟩
        = ((⟨[1, 1, 1, 1], [5]⟩ : Tensor).add ⟨[1, 1, 1, 1], [7]⟩).map
            fun v => ((⟨[1], [0]⟩ : Tensor), v) :=
  ⟨by decide,
   (predict_mean_and_var_dispatch 1 [7] ⟨[1], [0]⟩ ⟨[1, 1, 1, 1], [5]⟩).2.1 (by decide)⟩

namespace GaussianWithout2Pi

lemma fsList_length (A : Nat → Nat → ℚ) (bb : Nat → ℚ) : ∀ k, (fsList A bb k).length = k := by
  intro k
  induction k with
  | zero => rfl
  | succ i ih => simp [fsList, ih]

lemma fsList_succ (A : Nat → Nat → ℚ) (bb : Nat → ℚ) (i : Nat) :
    fsList A bb (i + 1)
      = fsList A bb i
        ++ [(bb i - ((List.range i).map fun j => A i j * (fsList A bb i).getD j 0).sum)
              / A i i] := rfl

lemma fsList_getD_stable (A : Nat → Nat → ℚ) (bb : Nat → ℚ) :
    ∀ m k, k ≤ m → ∀ j, j < k → (fsList A bb m).getD j 0 = (fsList A bb k).getD j 0 := by
  intro m
  induction m with
  | zero =>
    intro k hk j hj
    omega
  | succ m ih =>
    intro k hk j hj
    rcases Nat.eq_or_lt_of_le hk with h | h
    · subst h
      rfl
    · have hk2 : k ≤ m := Nat.lt_succ_iff.mp h
      rw [fsList_succ, List.getD_append _ _ _ _ (by rw [fsList_length]; omega)]
      exact ih k hk2 j hj

lemma fsList_getD_self (A : Nat → Nat → ℚ) (bb : Nat → ℚ) (i : Nat) :
    (fsList A bb (i + 1)).getD i 0
      = (bb i - ((List.range i).map fun j => A i j * (fsList A bb i).getD j 0).sum)
          / A i i := by
  rw [fsList_succ, List.getD_append_right _ _ _ _ (by simp [fsList_length])]
  simp [fsList_length]

/-- Forward-substitution correctness: for a lower-triangular matrix with
nonzero diagonal, `forwardSolve` produces a genuine solution of
`variance_cho · x = d`. -/
lemma forwardSolve_mulVec (n : Nat) (C : Matrix (Fin n) (Fin n) ℚ) (d : Fin n → ℚ)
    (hlt : ∀ i j : Fin n, (i : ℕ) < (j : ℕ) → C i j = 0) (hdiag : ∀ i, C i i ≠ 0) :
    C *ᵥ forwardSolve n C d = d := by
  set A : Nat → Nat → ℚ :=
    fun a b => if h : a < n ∧ b < n then C ⟨a, h.1⟩ ⟨b, h.2⟩ else 0 with hA
  set bb : Nat → ℚ := fun a => if h : a < n then d ⟨a, h⟩ else 0 with hbb
  set X : Nat → ℚ := fun j => (fsList A bb n).getD j 0 with hX
  have hXformula : ∀ j, j < n →
      X j = (bb j - ∑ l ∈ Finset.range j, A j l * X l) / A j j := by
    intro j hj
    have h1 : X j = (fsList A bb (j + 1)).getD j 0 := by
      rw [hX]
      exact fsList_getD_stable A bb n (j + 1) hj j (Nat.lt_succ_self j)
    rw [h1, fsList_getD_self]
    congr 2
    show ∑ l ∈ Finset.range j, A j l * (fsList A bb j).getD l 0
        = ∑ l ∈ Finset.range j, A j l * X l
    refine Finset.sum_congr rfl fun l hl => ?_
    show A j l * (fsList A bb j).getD l 0 = A j l * (fsList A bb n).getD l 0
    rw [fsList_getD_stable A bb n j (le_of_lt hj) l (Finset.mem_range.mp hl)]
  funext i
  have hi : (i : ℕ) < n := i.isLt
  show ∑ j : Fin n, C i j * forwardSolve n C d j = d i
  have hsum : ∑ j : Fin n, C i j * forwardSolve n C d j
      = ∑ j ∈ Finset.range n, A i.val j * X j := by
    rw [← Fin.sum_univ_eq_sum_range (fun j => A i.val j * X j) n]
    refine Finset.sum_congr rfl fun j _ => ?_
    have : A i.val j.val = C i j := by
      rw [hA]
      simp [i.isLt, j.isLt]
    rw [this]
    rfl
  rw [hsum, ← Finset.sum_range_add_sum_Ico _ (Nat.succ_le_of_lt hi), Finset.sum_range_succ]
  have hIco : ∑ j ∈ Finset.Ico (i.val + 1) n, A i.val j * X j = 0 := by
    refine Finset.sum_eq_zero fun j hj => ?_
    obtain ⟨hj1, hj2⟩ := Finset.mem_Ico.mp hj
    have : A i.val j = 0 := by
      rw [hA]
      simp only [i.isLt, hj2, and_true, true_and, dif_pos]
      exact hlt i ⟨j, hj2⟩ (show (i : ℕ) < j by omega)
    rw [this, zero_mul]
  have hAii : A i.val i.val = C i i := by
    rw [hA]
    simp [i.isLt]
  have hbi : bb i.val = d i := by
    rw [hbb]
    simp [i.isLt]
  have hdiagterm : A i.val i.val * X i.val
      = d i - ∑ l ∈ Finset.range i.val, A i.val l * X l := by
    rw [hXformula i.val hi, hAii, hbi, mul_comm, div_mul_cancel₀ _ (hdiag i)]
  rw [hIco, hdiagterm]
  ring

/-- The quadratic-form identity: for a lower-triangular Cholesky factor `C`
with nonzero diagonal, the solution `x` of `C · x = d` satisfies
`x ⬝ x = dᵗ · (C·Cᵗ)⁻¹ · d`. -/
lemma forwardSolve_quadform (n : Nat) (C : Matrix (Fin n) (Fin n) ℚ) (d : Fin n → ℚ)
    (hlt : ∀ i j : Fin n, (i : ℕ) < (j : ℕ) → C i j = 0) (hdiag : ∀ i, C i i ≠ 0) :
    forwardSolve n C d ⬝ᵥ forwardSolve n C d = d ⬝ᵥ ((C * Cᵀ)⁻¹ *ᵥ d) := by
  have hCx : C *ᵥ forwardSolve n C d = d := forwardSolve_mulVec n C d hlt hdiag
  have hut : Cᵀ.BlockTriangular id := by
    intro a b hab
    exact hlt b a hab
  have hdet : IsUnit C.det := by
    rw [← Matrix.det_transpose, Matrix.det_of_upperTriangular hut, isUnit_iff_ne_zero]
    refine Finset.prod_ne_zero_iff.mpr fun i _ => ?_
    exact hdiag i
  have hxd : C⁻¹ *ᵥ d = forwardSolve n C d := by
    conv_lhs => rw [← hCx]
    rw [Matrix.mulVec_mulVec, Matrix.nonsing_inv_mul C hdet, Matrix.one_mulVec]
  rw [Matrix.mul_inv_rev, ← Matrix.mulVec_mulVec, hxd, ← Matrix.transpose_nonsing_inv,
    Matrix.dotProduct_mulVec, Matrix.vecMul_transpose, hxd]

end GaussianWithout2Pi

/-- C2: for every mean, ordinate and Cholesky factor accepted by
`GaussianWithout2Pi.log_pdf` (lower-triangular with nonzero diagonal in the
dense case, nonzero diagonal vector in the diagonal case), the first
component of the result is `-0.5` times the trailing-axis sum of `x·x`,
where `x` divides the centered ordinate by the diagonal
(`is_variance_diagonal`) or solves `variance_cho · x = ordinate - mean` by
forward substitution; in both cases this equals
`-0.5 · (ordinate-mean)ᵗ · Σ⁻¹ · (ordinate-mean)` for `Σ = C·Cᵀ`
(respectively `Σ = diagonal(cho²)`). -/
theorem log_pdf_exponent_quadform (n : Nat) (C : Matrix (Fin n) (Fin n) ℚ)
    (choDiag mean ordinate : Fin n → ℚ)
    (hlt : ∀ i j : Fin n, (i : ℕ) < (j : ℕ) → C i j = 0)
    (hdiag : ∀ i, C i i ≠ 0) (hchd : ∀ i, choDiag i ≠ 0) :
    GaussianWithout2Pi.logPdfExponentDense n C mean ordinate
        = -(1 / 2) * ((fun i => ordinate i - mean i) ⬝ᵥ
            ((C * Cᵀ)⁻¹ *ᵥ fun i => ordinate i - mean i))
    ∧ GaussianWithout2Pi.logPdfExponentDiag n choDiag mean ordinate
        = -(1 / 2) * ((fun i => ordinate i - mean i) ⬝ᵥ
            ((Matrix.diagonal fun i => choDiag i * choDiag i)⁻¹ *ᵥ
              fun i => ordinate i - mean i)) := by
  constructor
  · rw [← GaussianWithout2Pi.forwardSolve_quadform n C (fun i => ordinate i - mean i) hlt hdiag]
    rfl
  · have hinv : (Matrix.diagonal fun i => choDiag i * choDiag i)⁻¹
        = Matrix.diagonal fun i => (choDiag i * choDiag i)⁻¹ := by
      apply Matrix.inv_eq_right_inv
      rw [Matrix.diagonal_mul_diagonal]
      rw [show (fun i => choDiag i * choDiag i * (choDiag i * choDiag i)⁻¹)
          = fun _ : Fin n => (1 : ℚ) from funext fun i =>
            mul_inv_cancel₀ (mul_ne_zero (hchd i) (hchd i))]
      exact Matrix.diagonal_one
    rw [hinv]
    rw [show (Matrix.diagonal fun i => (choDiag i * choDiag i)⁻¹) *ᵥ
          (fun i => ordinate i - mean i)
        = fun i => (choDiag i * choDiag i)⁻¹ * (ordinate i - mean i) from
          funext fun i => Matrix.mulVec_diagonal _ _ i]
    show -(1 / 2) * ∑ i, (ordinate i - mean i) / choDiag i * ((ordinate i - mean i) / choDiag i)
        = -(1 / 2) * ∑ i, (ordinate i - mean i) * ((choDiag i * choDiag i)⁻¹ * (ordinate i - mean i))
    congr 1
    refine Finset.sum_congr rfl fun i _ => ?_
    field_simp

/-- Witness for `log_pdf_exponent_quadform` at a concrete lower-triangular
factor, diagonal, mean and ordinate over `Fin 2`. -/
theorem log_pdf_exponent_quadform_w :
    (∀ i j : Fin 2, (i : ℕ) < (j : ℕ) → Matrix.of ![![(1 : ℚ), 0], ![2, 3]] i j = 0)
    ∧ (∀ i : Fin 2, Matrix.of ![![(1 : ℚ), 0], ![2, 3]] i i ≠ 0)
    ∧ (∀ i : Fin 2, (![(1 : ℚ), 2] : Fin 2 → ℚ) i ≠ 0)
    ∧ (GaussianWithout2Pi.logPdfExponentDense 2 (Matrix.of ![![(1 : ℚ), 0], ![2, 3]])
          ![0, 1] ![2, 0]
        = -(1 / 2) * ((fun i => (![(2 : ℚ), 0] : Fin 2 → ℚ) i - ![0, 1] i) ⬝ᵥ
            ((Matrix.of ![![(1 : ℚ), 0], ![2, 3]] * (Matrix.of ![![(1 : ℚ), 0], ![2, 3]])ᵀ)⁻¹ *ᵥ
              fun i => (![(2 : ℚ), 0] : Fin 2 → ℚ) i - ![0, 1] i))) :=
  ⟨by decide, by decide, by decide,
   (log_pdf_exponent_quadform 2 (Matrix.of ![![(1 : ℚ), 0], ![2, 3]]) ![1, 2] ![0, 1] ![2, 0]
     (by decide) (by decide) (by decide)).1⟩

/-- C10: `log_pdf` called without an ordinate defaults it to the scalar
zero; its (empty) shape differs from the shape of every non-scalar mean, so
the reshape step is skipped, the centered ordinate is `0 - mean`, and the
dense exponent equals `-0.5 · meanᵗ · Σ⁻¹ · mean` — the un-normalized
log-density at the origin. -/
theorem log_pdf_default_ordinate (n : Nat) (C : Matrix (Fin n) (Fin n) ℚ) (mean : Fin n → ℚ)
    (hlt : ∀ i j : Fin n, (i : ℕ) < (j : ℕ) → C i j = 0) (hdiag : ∀ i, C i i ≠ 0) :
    (⟨[], [0]⟩ : Tensor).shape ≠ [n]
    ∧ GaussianWithout2Pi.logPdfExponentDense n C mean (fun _ => 0)
        = -(1 / 2) * (mean ⬝ᵥ ((C * Cᵀ)⁻¹ *ᵥ mean)) := by
  refine ⟨by simp, ?_⟩
  have hfun : (fun i : Fin n => (0 : ℚ) - mean i) = fun i => -mean i :=
    funext fun i => by ring
  show -(1 / 2) * ∑ i, GaussianWithout2Pi.forwardSolve n C (fun i => (0 : ℚ) - mean i) i
        * GaussianWithout2Pi.forwardSolve n C (fun i => (0 : ℚ) - mean i) i
      = -(1 / 2) * (mean ⬝ᵥ ((C * Cᵀ)⁻¹ *ᵥ mean))
  rw [hfun]
  rw [show (∑ i, GaussianWithout2Pi.forwardSolve n C (fun i => -mean i) i
        * GaussianWithout2Pi.forwardSolve n C (fun i => -mean i) i)
      = GaussianWithout2Pi.forwardSolve n C (fun i => -mean i)
          ⬝ᵥ GaussianWithout2Pi.forwardSolve n C (fun i => -mean i) from rfl]
  rw [GaussianWithout2Pi.forwardSolve_quadform n C (fun i => -mean i) hlt hdiag]
  rw [show (fun i => -mean i) = -mean from rfl, Matrix.mulVec_neg,
    Matrix.dotProduct_neg, Matrix.neg_dotProduct, neg_neg]

/-- Witness for `log_pdf_default_ordinate` over `Fin 2`. -/
theorem log_pdf_default_ordinate_w :
    (∀ i j : Fin 2, (i : ℕ) < (j : ℕ) → Matrix.of ![![(2 : ℚ), 0], ![1, 1]] i j = 0)
    ∧ (∀ i : Fin 2, Matrix.of ![![(2 : ℚ), 0], ![1, 1]] i i ≠ 0)
    ∧ ((⟨[], [0]⟩ : Tensor).shape ≠ [2]
      ∧ GaussianWithout2Pi.logPdfExponentDense 2 (Matrix.of ![![(2 : ℚ), 0], ![1, 1]])
            ![3, 4] (fun _ => 0)
          = -(1 / 2) * ((![(3 : ℚ), 4] : Fin 2 → ℚ) ⬝ᵥ
              ((Matrix.of ![![(2 : ℚ), 0], ![1, 1]]
                  * (Matrix.of ![![(2 : ℚ), 0], ![1, 1]])ᵀ)⁻¹ *ᵥ ![3, 4]))) :=
  ⟨by decide, by decide,
   log_pdf_default_ordinate 2 (Matrix.of ![![(2 : ℚ), 0], ![1, 1]]) ![3, 4]
     (by decide) (by decide)⟩
